import Mathlib

/-!
Verification of the `PDFParser` orchestrator of the pdf-parser-demo
repository (`pdf_parser.py`, `cli.py`, `gui.py`), via a shallow embedding.

External libraries (ocrmypdf, pdfminer, PyMuPDF/fitz, tabula, GraphicsMagick,
unstructured) are black boxes: an `Env` record supplies, for each library
call, its outcome as a function of the call's arguments.  The file system is
modelled explicitly (directories and files keyed by paths), since the
orchestrator's observable behaviour is which files it creates, reads and
removes.  Each method of `PDFParser` is translated statement by statement;
operations that can only fail inside their `try` block are total Lean
functions, while statements outside a `try` block (the `mkdir` in
`extract_images`, the existence check in the constructor) can surface a
Python exception, modelled with `Except`.
-/

namespace PdfDemo

/-- A file-system path, as a list of components. -/
abbrev FPath := List String

/-- Contents of a file: raw bytes/text, or a spreadsheet workbook
(a list of named sheets, each sheet a table of cells). -/
inductive FileData where
  | raw (s : String)
  | workbook (sheets : List (String × List (List String)))
deriving DecidableEq

/-- A table as returned by the table detector: a list of rows. -/
abbrev Table := List (List String)

/-- The file system: which paths are directories, and which paths hold
files (with their contents). -/
structure FS where
  dirs : FPath → Bool
  files : FPath → Option FileData

theorem FS.ext2 {f g : FS} (hd : ∀ p, f.dirs p = g.dirs p)
    (hf : ∀ p, f.files p = g.files p) : f = g := by
  cases f
  cases g
  congr 1
  · funext p
    exact hd p
  · funext p
    exact hf p

/-- `Path.exists()` in Python: true for a file or a directory. -/
def FS.pathExists (fs : FS) (p : FPath) : Bool :=
  (fs.files p).isSome || fs.dirs p

/-- Write (create or overwrite) the file at `p`. -/
def FS.writeFile (fs : FS) (p : FPath) (c : FileData) : FS :=
  { fs with files := fun q => if q = p then some c else fs.files q }

/-- Record `p` as an existing directory. -/
def FS.mkdirAdd (fs : FS) (p : FPath) : FS :=
  { fs with dirs := fun q => if q = p then true else fs.dirs q }

/-- `shutil.rmtree(root)`: remove `root` and everything below it. -/
def FS.removeTree (fs : FS) (root : FPath) : FS :=
  { dirs := fun q => if root.isPrefixOf q then false else fs.dirs q,
    files := fun q => if root.isPrefixOf q then none else fs.files q }

theorem FS.writeFile_dirs (fs : FS) (p : FPath) (c : FileData) :
    (fs.writeFile p c).dirs = fs.dirs := rfl

theorem FS.mkdirAdd_files (fs : FS) (p : FPath) :
    (fs.mkdirAdd p).files = fs.files := rfl

theorem FS.writeFile_files_self (fs : FS) (p : FPath) (c : FileData) :
    (fs.writeFile p c).files p = some c := by
  simp [FS.writeFile]

theorem FS.writeFile_files_ne (fs : FS) (p q : FPath) (c : FileData)
    (h : q ≠ p) : (fs.writeFile p c).files q = fs.files q := by
  simp [FS.writeFile, h]

theorem FS.writeFile_comm (fs : FS) (p q : FPath) (cp cq : FileData)
    (h : p ≠ q) :
    (fs.writeFile p cp).writeFile q cq = (fs.writeFile q cq).writeFile p cp := by
  refine FS.ext2 (fun r => rfl) (fun r => ?_)
  simp only [FS.writeFile]
  by_cases hp : r = p <;> by_cases hq : r = q
  · exact absurd (hp.symm.trans hq) h
  · simp [hp, hq, h]
  · simp [hp, hq, Ne.symm h]
  · simp [hp, hq]

theorem FS.writeFile_same (fs : FS) (p : FPath) (c₁ c₂ : FileData) :
    (fs.writeFile p c₁).writeFile p c₂ = fs.writeFile p c₂ := by
  refine FS.ext2 (fun r => rfl) (fun r => ?_)
  simp only [FS.writeFile]
  by_cases hp : r = p <;> simp [hp]

theorem FS.mkdirAdd_writeFile (fs : FS) (d p : FPath) (c : FileData) :
    (fs.writeFile p c).mkdirAdd d = (fs.mkdirAdd d).writeFile p c := rfl

theorem FS.mkdirAdd_self (fs : FS) (d : FPath) (h : fs.dirs d = true) :
    fs.mkdirAdd d = fs := by
  refine FS.ext2 (fun r => ?_) (fun r => rfl)
  simp only [FS.mkdirAdd]
  by_cases hr : r = d
  · subst hr
    simp [h]
  · simp [hr]

theorem FS.mkdirAdd_dirs_self (fs : FS) (d : FPath) :
    (fs.mkdirAdd d).dirs d = true := by
  simp [FS.mkdirAdd]

theorem FS.mkdirAdd_dirs_ne (fs : FS) (d q : FPath) (h : q ≠ d) :
    (fs.mkdirAdd d).dirs q = fs.dirs q := by
  simp [FS.mkdirAdd, h]

/-! ## Decimal rendering of naturals

Python's f-strings print integers in decimal; file names such as
`image_p{page}_{index}.{ext}` and sheet names `Table_{i}` embed decimal
numerals.  `natStr` is that decimal rendering, together with the facts the
naming claims need: its characters are digits, and it is injective. -/

/-- Digit characters of `n`, most significant first (empty for 0). -/
def natStrAux : Nat → List Char
  | 0 => []
  | n + 1 => natStrAux ((n + 1) / 10) ++ [Nat.digitChar ((n + 1) % 10)]
decreasing_by exact Nat.div_lt_self (Nat.succ_pos n) (by omega)

/-- Decimal rendering of a natural number. -/
def natStr (n : Nat) : String :=
  if n = 0 then "0" else String.mk (natStrAux n)

/-- Value of a digit-character list read in base 10. -/
def listVal (cs : List Char) : Nat :=
  cs.foldl (fun a c => 10 * a + (c.toNat - 48)) 0

theorem listVal_append_singleton (cs : List Char) (c : Char) :
    listVal (cs ++ [c]) = 10 * listVal cs + (c.toNat - 48) := by
  simp [listVal, List.foldl_append]

theorem digitChar_val : ∀ k, k < 10 → (Nat.digitChar k).toNat - 48 = k := by
  decide

theorem listVal_natStrAux : ∀ n, listVal (natStrAux n) = n := by
  intro n
  induction n using Nat.strong_induction_on with
  | _ n ih =>
    match n with
    | 0 => simp [natStrAux, listVal]
    | m + 1 =>
      rw [natStrAux, listVal_append_singleton,
        digitChar_val _ (Nat.mod_lt _ (by omega)),
        ih _ (Nat.div_lt_self (Nat.succ_pos m) (by omega))]
      omega

theorem natStrAux_mem : ∀ n c, c ∈ natStrAux n → ∃ k, k < 10 ∧ c = Nat.digitChar k := by
  intro n
  induction n using Nat.strong_induction_on with
  | _ n ih =>
    match n with
    | 0 => simp [natStrAux]
    | m + 1 =>
      intro c hc
      rw [natStrAux] at hc
      rcases List.mem_append.mp hc with h | h
      · exact ih _ (Nat.div_lt_self (Nat.succ_pos m) (by omega)) c h
      · exact ⟨(m + 1) % 10, Nat.mod_lt _ (by omega), (List.mem_singleton.mp h)⟩

theorem digitChar_ne_sep : ∀ k, k < 10 →
    Nat.digitChar k ≠ '_' ∧ Nat.digitChar k ≠ '.' := by
  decide

theorem natStr_data_ne_sep (n : Nat) :
    ∀ c ∈ (natStr n).data, c ≠ '_' ∧ c ≠ '.' := by
  intro c hc
  by_cases h : n = 0
  · subst h
    simp only [natStr, if_pos rfl] at hc
    have : c = '0' := by simpa using hc
    subst this
    decide
  · simp only [natStr, if_neg h] at hc
    obtain ⟨k, hk, rfl⟩ := natStrAux_mem n c hc
    exact digitChar_ne_sep k hk

theorem natStrAux_eq_nil_iff (n : Nat) : natStrAux n = [] ↔ n = 0 := by
  constructor
  · intro h
    match n with
    | 0 => rfl
    | m + 1 =>
      rw [natStrAux] at h
      exact absurd h (by simp)
  · intro h
    subst h
    simp [natStrAux]

theorem listVal_natStr (n : Nat) : listVal (natStr n).data = n := by
  by_cases h : n = 0
  · subst h
    simp only [natStr, if_pos rfl]
    decide
  · simp only [natStr, if_neg h]
    exact listVal_natStrAux n

theorem natStr_inj {m n : Nat} (h : natStr m = natStr n) : m = n := by
  have := congrArg (fun s => listVal s.data) h
  simp only [listVal_natStr] at this
  exact this

/-- Splitting a list at a separator character that occurs in neither prefix
part is unambiguous. -/
theorem sep_split (sep : Char) :
    ∀ (a a' b b' : List Char), (∀ c ∈ a, c ≠ sep) → (∀ c ∈ a', c ≠ sep) →
      a ++ sep :: b = a' ++ sep :: b' → a = a' ∧ b = b' := by
  intro a
  induction a with
  | nil =>
    intro a' b b' _ ha' h
    cases a' with
    | nil => simpa using h
    | cons x xs =>
      simp only [List.nil_append, List.cons_append, List.cons.injEq] at h
      exact absurd h.1.symm (ha' x (by simp))
  | cons x xs ih =>
    intro a' b b' ha ha' h
    cases a' with
    | nil =>
      simp only [List.cons_append, List.nil_append, List.cons.injEq] at h
      exact absurd h.1 (ha x (by simp))
    | cons y ys =>
      simp only [List.cons_append, List.cons.injEq] at h
      obtain ⟨rfl, h2⟩ := h
      obtain ⟨h3, h4⟩ := ih ys b b' (fun c hc => ha c (by simp [hc]))
        (fun c hc => ha' c (by simp [hc])) h2
      exact ⟨by rw [h3], h4⟩

/-- The file name used for the image at 1-based page `pn`, 1-based
per-page index `idx`, with extension `ext`:
`f"image_p{page_num+1}_{img_index+1}.{ext}"`. -/
def imgFileName (pn idx : Nat) (ext : String) : String :=
  "image_p" ++ natStr pn ++ "_" ++ natStr idx ++ "." ++ ext

theorem underscore_data : ("_" : String).data = ['_'] := rfl

theorem dot_data : ("." : String).data = ['.'] := rfl

theorem imagep_data :
    ("image_p" : String).data = ['i', 'm', 'a', 'g', 'e', '_', 'p'] := rfl

/-- Distinct (page, index) pairs give distinct image file names. -/
theorem imgFileName_inj {pn idx pn' idx' : Nat} {e e' : String}
    (h : imgFileName pn idx e = imgFileName pn' idx' e') :
    pn = pn' ∧ idx = idx' := by
  have hd := congrArg String.data h
  simp only [imgFileName, String.data_append, underscore_data, dot_data,
    imagep_data, List.append_assoc, List.singleton_append, List.cons_append,
    List.cons.injEq, true_and] at hd
  obtain ⟨h1, h2⟩ := sep_split '_' _ _ _ _
    (fun c hc => (natStr_data_ne_sep pn c hc).1)
    (fun c hc => (natStr_data_ne_sep pn' c hc).1) hd
  obtain ⟨h3, _⟩ := sep_split '.' _ _ _ _
    (fun c hc => (natStr_data_ne_sep idx c hc).2)
    (fun c hc => (natStr_data_ne_sep idx' c hc).2) h2
  constructor
  · have hv := congrArg listVal h1
    rwa [listVal_natStr, listVal_natStr] at hv
  · have hv := congrArg listVal h3
    rwa [listVal_natStr, listVal_natStr] at hv

theorem ocr_name_ne_tables (a b : String) : "ocr_" ++ a ≠ "tables_" ++ b := by
  intro h
  have hd := congrArg (fun s => s.data.head?) h
  simp only [String.data_append,
    show ("ocr_" : String).data = ['o', 'c', 'r', '_'] from rfl,
    show ("tables_" : String).data = ['t', 'a', 'b', 'l', 'e', 's', '_'] from rfl,
    List.cons_append, List.head?] at hd
  exact absurd (Option.some.inj hd) (by decide)

theorem ocr_name_ne_images (a : String) : "ocr_" ++ a ≠ "images" := by
  intro h
  have hd := congrArg (fun s => s.data.head?) h
  simp only [String.data_append,
    show ("ocr_" : String).data = ['o', 'c', 'r', '_'] from rfl,
    show ("images" : String).data = ['i', 'm', 'a', 'g', 'e', 's'] from rfl,
    List.cons_append, List.head?] at hd
  exact absurd (Option.some.inj hd) (by decide)

theorem tables_name_ne_images (b : String) : "tables_" ++ b ≠ "images" := by
  intro h
  have hd := congrArg (fun s => s.data.head?) h
  simp only [String.data_append,
    show ("tables_" : String).data = ['t', 'a', 'b', 'l', 'e', 's', '_'] from rfl,
    show ("images" : String).data = ['i', 'm', 'a', 'g', 'e', 's'] from rfl,
    List.cons_append, List.head?] at hd
  exact absurd (Option.some.inj hd) (by decide)

/-- `Path.stem` in Python: the final component without its last suffix
(the suffix must be neither the whole name nor empty). -/
def pathStem (name : String) : String :=
  let rev := name.data.reverse
  let pre := rev.takeWhile (fun c => c != '.')
  if pre.length = rev.length then name
  else if pre.length = 0 then name
  else
    let rest := (rev.drop (pre.length + 1)).reverse
    if rest.isEmpty then name else String.mk rest

/-- `Path(p).name`: the final path component. -/
def pathName (p : FPath) : String := p.getLast?.getD ""

/-! ## The world: events, state, exceptions, environment -/

/-- Observable events: calls into the external libraries (with their path
arguments) and log records. -/
inductive Event where
  | ocrCall (input output : FPath)
  | minerCall (p : FPath)
  | fitzOpen (p : FPath)
  | gmCall (p : FPath)
  | tabulaCall (p : FPath)
  | partitionCall (p : FPath)
  | logInfo (msg : String)
  | logError (msg : String)
  | logWarn (msg : String)
deriving DecidableEq

/-- World state threaded through the orchestrator: the file system plus
the trace of library calls and log records. -/
structure PyState where
  fs : FS
  trace : List Event

def PyState.emit (st : PyState) (e : Event) : PyState :=
  { st with trace := st.trace ++ [e] }

/-- Python exceptions that can escape a statement outside a `try` block. -/
inductive PyExn where
  | fileNotFound (msg : String)
  | fileExistsErr (msg : String)
deriving DecidableEq

/-- One embedded image as surfaced by `fitz`: its bytes and extension. -/
structure ImgInfo where
  bytes : String
  ext : String
deriving DecidableEq

/-- Black-box behaviour of the external libraries plus the initial world.
Each field gives the outcome of one library call as a function of the
call's path arguments. -/
structure Env where
  pdfPath : FPath
  tempDir : FPath
  fs0 : FS
  ocrOk : FPath → FPath → Bool
  ocrOut : FPath → FPath → String
  ocrErr : String
  miner : FPath → Except String String
  fitzPages : FPath → Except String (List (List ImgInfo))
  gmOk : FPath → Bool
  gmOut : FPath → String
  tabula : FPath → Except String (List Table)
  partitionPdf : FPath → Except String (List String)

/-- Well-formedness of the environment: `tempfile.mkdtemp()` returns a
fresh directory — it does not yet exist, nothing lives under it, and the
source document is not inside it. -/
def Env.Wf (env : Env) : Prop :=
  env.fs0.dirs env.tempDir = false ∧
  (∀ p, env.tempDir.isPrefixOf p = true → env.fs0.files p = none) ∧
  (∀ p, env.tempDir.isPrefixOf p = true → p ≠ env.tempDir → env.fs0.dirs p = false) ∧
  env.tempDir.isPrefixOf env.pdfPath = false

/-! ## The orchestrator: `PDFParser` (pdf_parser.py) -/

/-- The orchestrator's per-session fields, set in `__init__`:
`self.pdf_path`, `self.temp_dir`, `self.ocr_path`. -/
structure PDFParser where
  pdf_path : FPath
  temp_dir : FPath
  ocr_path : FPath
deriving DecidableEq

/-- `PDFParser.__init__`: raise `FileNotFoundError` when the source path
does not exist; otherwise allocate the scratch directory (`mkdtemp`) and
precompute `ocr_path = temp_dir / f"ocr_{name}"`.  Returns the
construction outcome together with the resulting world (unchanged when
construction fails — `mkdtemp` runs after the check). -/
def PDFParser.init (env : Env) : Except PyExn PDFParser × PyState :=
  if env.fs0.pathExists env.pdfPath then
    (.ok { pdf_path := env.pdfPath, temp_dir := env.tempDir,
           ocr_path := env.tempDir ++ ["ocr_" ++ pathName env.pdfPath] },
     { fs := env.fs0.mkdirAdd env.tempDir, trace := [] })
  else
    (.error (.fileNotFound "PDF file does not exist"),
     { fs := env.fs0, trace := [] })

/-- `perform_ocr`: run `ocrmypdf.ocr(pdf_path, ocr_path, ...)` inside
`try`; on success return `ocr_path`, on failure log the error and return
the original `pdf_path`. -/
def PDFParser.perform_ocr (env : Env) (s : PDFParser) (st : PyState) :
    FPath × PyState :=
  let st := (st.emit (.logInfo "start OCR")).emit (.ocrCall s.pdf_path s.ocr_path)
  if env.ocrOk s.pdf_path s.ocr_path then
    let st := { st with
      fs := st.fs.writeFile s.ocr_path (.raw (env.ocrOut s.pdf_path s.ocr_path)) }
    (s.ocr_path, st.emit (.logInfo "OCR done"))
  else
    (s.pdf_path, st.emit (.logError ("OCR failed: " ++ env.ocrErr)))

/-- `extract_text_with_pdfminer`: `pdfminer.extract_text(pdf_path)` inside
`try`; the empty string on failure. -/
def PDFParser.extract_text_with_pdfminer (env : Env) (s : PDFParser)
    (st : PyState) : String × PyState :=
  let st := (st.emit (.logInfo "PDFMiner text")).emit (.minerCall s.pdf_path)
  match env.miner s.pdf_path with
  | .ok t => (t, st)
  | .error e => ("", st.emit (.logError ("text extraction failed: " ++ e)))

/-- `Path.mkdir(exist_ok=True)` (with the default `parents=False`):
succeeds when the path is already a directory; `FileExistsError` when it
names a file; creates it when the parent directory exists; otherwise
`FileNotFoundError`. -/
def FS.mkdirStatus (fs : FS) (p : FPath) : Except PyExn FS :=
  if fs.dirs p then .ok fs
  else if (fs.files p).isSome then .error (.fileExistsErr "mkdir: path is a file")
  else if fs.dirs p.dropLast then .ok (fs.mkdirAdd p)
  else .error (.fileNotFound "mkdir: parent directory does not exist")

/-- `_optimize_image`: run `gm convert` on the file inside `try`; success
rewrites the file with the optimized contents, failure is logged as a
warning and leaves the file as written. -/
def PDFParser.optimize_image (env : Env) (p : FPath) (st : PyState) : PyState :=
  let st := st.emit (.gmCall p)
  if env.gmOk p then { st with fs := st.fs.writeFile p (.raw (env.gmOut p)) }
  else st.emit (.logWarn "image optimization failed")

/-- Inner loop of `extract_images`: write each image of one page (1-based
index `idx` onwards) and optimize it, incrementing `image_count`. -/
def imgLoop (env : Env) (idir : FPath) (pn : Nat) :
    Nat → List ImgInfo → PyState → Nat → Nat × PyState
  | _, [], st, cnt => (cnt, st)
  | idx, info :: rest, st, cnt =>
    let p := idir ++ [imgFileName pn idx info.ext]
    let st := { st with fs := st.fs.writeFile p (.raw info.bytes) }
    let st := PDFParser.optimize_image env p st
    imgLoop env idir pn (idx + 1) rest st (cnt + 1)

/-- Outer loop of `extract_images` over the document's pages (1-based page
number `pn` onwards). -/
def pagesLoop (env : Env) (idir : FPath) :
    Nat → List (List ImgInfo) → PyState → Nat → Nat × PyState
  | _, [], st, cnt => (cnt, st)
  | pn, imgs :: rest, st, cnt =>
    let r := imgLoop env idir pn 1 imgs st cnt
    pagesLoop env idir (pn + 1) rest r.2 r.1

/-- `extract_images`: create the `images` subdirectory (this `mkdir` is
outside the `try` block, so it can raise), then inside `try` open the
document with `fitz` and write every page's images, optimizing each; the
directory is returned, or `None` when `fitz` fails. -/
def PDFParser.extract_images (env : Env) (s : PDFParser) (st : PyState) :
    Except PyExn (Option FPath × PyState) :=
  let st := st.emit (.logInfo "start image extraction")
  let idir := s.temp_dir ++ ["images"]
  match st.fs.mkdirStatus idir with
  | .error e => .error e
  | .ok fs1 =>
    let st := { st with fs := fs1 }
    let st := st.emit (.fitzOpen s.pdf_path)
    match env.fitzPages s.pdf_path with
    | .error e => .ok (none, st.emit (.logError ("image extraction failed: " ++ e)))
    | .ok pages =>
      let r := pagesLoop env idir 1 pages st 0
      .ok (some idir, r.2.emit (.logInfo ("extracted " ++ natStr r.1 ++ " images")))

/-- Sheets written by `extract_tables`: one sheet `Table_{i}` per detected
table, `i` counted from 1 (`enumerate(tables, 1)`). -/
def sheetsOf : Nat → List Table → List (String × Table)
  | _, [] => []
  | i, t :: rest => ("Table_" ++ natStr i, t) :: sheetsOf (i + 1) rest

/-- Path of the workbook written by `extract_tables`:
`temp_dir / f"tables_{pdf_path.stem}.xlsx"`. -/
def tablesPath (s : PDFParser) : FPath :=
  s.temp_dir ++ ["tables_" ++ pathStem (pathName s.pdf_path) ++ ".xlsx"]

/-- `extract_tables`: run `tabula.read_pdf(pdf_path, pages='all', ...)`
inside `try`; a non-empty table list is written as one workbook with one
sheet per table and its path returned; `None` when no tables were found or
the detector failed (opening the workbook for writing itself fails — and
is caught — when the scratch directory no longer exists). -/
def PDFParser.extract_tables (env : Env) (s : PDFParser) (st : PyState) :
    Option FPath × PyState :=
  let st := (st.emit (.logInfo "start table extraction")).emit (.tabulaCall s.pdf_path)
  match env.tabula s.pdf_path with
  | .error e => (none, st.emit (.logError ("table extraction failed: " ++ e)))
  | .ok ts =>
    if ts.isEmpty then (none, st)
    else if st.fs.dirs s.temp_dir then
      let st := { st with
        fs := st.fs.writeFile (tablesPath s) (.workbook (sheetsOf 1 ts)) }
      (some (tablesPath s), st.emit (.logInfo "tables written"))
    else (none, st.emit (.logError "table extraction failed: cannot write workbook"))

/-- `extract_structured_content`: `partition_pdf(pdf_path, strategy="fast")`
inside `try`; the empty element list on failure. -/
def PDFParser.extract_structured_content (env : Env) (s : PDFParser)
    (st : PyState) : List String × PyState :=
  let st := (st.emit (.logInfo "start structured extraction")).emit
    (.partitionCall s.pdf_path)
  match env.partitionPdf s.pdf_path with
  | .ok es => (es, st)
  | .error e => ([], st.emit (.logError ("structured extraction failed: " ++ e)))

/-- `cleanup`: `shutil.rmtree(temp_dir)` inside `try`; removing a missing
directory raises, which is caught and logged. -/
def PDFParser.cleanup (s : PDFParser) (st : PyState) : PyState :=
  if st.fs.dirs s.temp_dir then
    { fs := st.fs.removeTree s.temp_dir,
      trace := st.trace ++ [.logInfo "cleanup done"] }
  else st.emit (.logError "cleanup failed")

/-! ## Sequencing the operations -/

/-- The five extraction operations of the orchestrator. -/
inductive Op where
  | ocr
  | text
  | images
  | tables
  | structured
deriving DecidableEq

/-- Return value of one extraction operation. -/
inductive OpResult where
  | ocrRes (p : FPath)
  | textRes (t : String)
  | imagesRes (d : Option FPath)
  | tablesRes (p : Option FPath)
  | structuredRes (es : List String)
deriving DecidableEq

/-- Dispatch one extraction operation. -/
def runOp (env : Env) (s : PDFParser) :
    Op → PyState → Except PyExn (OpResult × PyState)
  | .ocr, st =>
    let r := PDFParser.perform_ocr env s st
    .ok (.ocrRes r.1, r.2)
  | .text, st =>
    let r := PDFParser.extract_text_with_pdfminer env s st
    .ok (.textRes r.1, r.2)
  | .images, st => (PDFParser.extract_images env s st).map fun r => (.imagesRes r.1, r.2)
  | .tables, st =>
    let r := PDFParser.extract_tables env s st
    .ok (.tablesRes r.1, r.2)
  | .structured, st =>
    let r := PDFParser.extract_structured_content env s st
    .ok (.structuredRes r.1, r.2)

/-- Run a list of extraction operations in order, collecting their return
values; an uncaught exception aborts the run. -/
def runOps (env : Env) (s : PDFParser) :
    List Op → PyState → Except PyExn (List OpResult × PyState)
  | [], st => .ok ([], st)
  | o :: rest, st =>
    match runOp env s o st with
    | .error e => .error e
    | .ok (r, st') =>
      match runOps env s rest st' with
      | .error e => .error e
      | .ok (rs, st'') => .ok (r :: rs, st'')

/-- A call on the session: an extraction operation or `cleanup`. -/
inductive FullOp where
  | op (o : Op)
  | cleanup
deriving DecidableEq

/-- Run an arbitrary call sequence on the session, `cleanup` included. -/
def runFullOps (env : Env) (s : PDFParser) :
    List FullOp → PyState → Except PyExn PyState
  | [], st => .ok st
  | .op o :: rest, st =>
    match runOp env s o st with
    | .error e => .error e
    | .ok (_, st') => runFullOps env s rest st'
  | .cleanup :: rest, st => runFullOps env s rest (PDFParser.cleanup s st)

/-! ## Canonical description of each operation's result and effect -/

/-- The `images` subdirectory of a session. -/
def imagesDir (s : PDFParser) : FPath := s.temp_dir ++ ["images"]

/-- Path of the file written for one embedded image. -/
def imgEntryPath (idir : FPath) (pn idx : Nat) (info : ImgInfo) : FPath :=
  idir ++ [imgFileName pn idx info.ext]

/-- Final contents of one written image file: the optimized contents when
`gm convert` succeeds on it, the raw extracted bytes otherwise. -/
def entryData (env : Env) (p : FPath) (info : ImgInfo) : FileData :=
  if env.gmOk p then .raw (env.gmOut p) else .raw info.bytes

/-- The (path, image) pairs of one page, indices from `idx`. -/
def pageEntries (idir : FPath) (pn : Nat) :
    Nat → List ImgInfo → List (FPath × ImgInfo)
  | _, [] => []
  | idx, info :: rest =>
    (imgEntryPath idir pn idx info, info) :: pageEntries idir pn (idx + 1) rest

/-- The (path, image) pairs of a whole document, page numbers from `pn`. -/
def docEntries (idir : FPath) : Nat → List (List ImgInfo) → List (FPath × ImgInfo)
  | _, [] => []
  | pn, imgs :: rest => pageEntries idir pn 1 imgs ++ docEntries idir (pn + 1) rest

/-- Apply the image-file writes described by a list of entries. -/
def applyEntries (env : Env) : List (FPath × ImgInfo) → FS → FS
  | [], fs => fs
  | e :: rest, fs => applyEntries env rest (fs.writeFile e.1 (entryData env e.1 e.2))

/-- The value each operation returns, as a function of the environment
only (valid while the scratch directory exists). -/
def opValue (env : Env) (s : PDFParser) : Op → OpResult
  | .ocr => .ocrRes (if env.ocrOk s.pdf_path s.ocr_path then s.ocr_path else s.pdf_path)
  | .text => .textRes (match env.miner s.pdf_path with
      | .ok t => t
      | .error _ => "")
  | .images => .imagesRes (match env.fitzPages s.pdf_path with
      | .ok _ => some (imagesDir s)
      | .error _ => none)
  | .tables => .tablesRes (match env.tabula s.pdf_path with
      | .ok ts => if ts.isEmpty then none else some (tablesPath s)
      | .error _ => none)
  | .structured => .structuredRes (match env.partitionPdf s.pdf_path with
      | .ok es => es
      | .error _ => [])

/-- The file-system effect of each operation. -/
def applyOp (env : Env) (s : PDFParser) : Op → FS → FS
  | .ocr, fs =>
    if env.ocrOk s.pdf_path s.ocr_path then
      fs.writeFile s.ocr_path (.raw (env.ocrOut s.pdf_path s.ocr_path))
    else fs
  | .text, fs => fs
  | .structured, fs => fs
  | .tables, fs =>
    match env.tabula s.pdf_path with
    | .error _ => fs
    | .ok ts =>
      if ts.isEmpty then fs
      else if fs.dirs s.temp_dir then
        fs.writeFile (tablesPath s) (.workbook (sheetsOf 1 ts))
      else fs
  | .images, fs =>
    match env.fitzPages s.pdf_path with
    | .error _ => fs.mkdirAdd (imagesDir s)
    | .ok pages =>
      applyEntries env (docEntries (imagesDir s) 1 pages) (fs.mkdirAdd (imagesDir s))

/-- Fold the per-operation effects over a list of operations. -/
def applyOps (env : Env) (s : PDFParser) : List Op → FS → FS
  | [], fs => fs
  | o :: rest, fs => applyOps env s rest (applyOp env s o fs)

/-! ## The front ends (cli.py, gui.py) -/

/-- CLI flags (the argparse booleans of cli.py). -/
structure CliArgs where
  ocr : Bool
  extract_text : Bool
  extract_images : Bool
  extract_tables : Bool
  extract_all : Bool
  keep_temp : Bool
deriving DecidableEq

/-- cli.py `main`, lines 85-93: when no per-operation flag is given set
`extract_all`, then expand `extract_all` into the four operation flags. -/
def resolveFlags (a : CliArgs) : CliArgs :=
  let a := if !(a.ocr || a.extract_text || a.extract_images || a.extract_tables)
    then { a with extract_all := true } else a
  if a.extract_all then
    { a with ocr := true, extract_text := true,
             extract_images := true, extract_tables := true }
  else a

/-- The orchestrator operations cli.py `main` invokes, in source order,
for a set of resolved flags. -/
def cliOps (a : CliArgs) : List Op :=
  (if a.ocr then [Op.ocr] else []) ++
  (if a.extract_text then [Op.text] else []) ++
  (if a.extract_images then [Op.images] else []) ++
  (if a.extract_tables then [Op.tables] else [])

/-- Which operations a CLI invocation runs: `none` when the input file is
missing (`main` logs and returns 1 before constructing the parser). -/
def cliPlannedOps (inputExists : Bool) (a : CliArgs) : Option (List Op) :=
  if inputExists then some (cliOps (resolveFlags a)) else none

/-- `shutil.copy2(src, dst)`: copy a regular file's contents. -/
def FS.copy2 (fs : FS) (src dst : FPath) : Except PyExn FS :=
  match fs.files src with
  | some c => .ok (fs.writeFile dst c)
  | none => .error (.fileNotFound "copy2: source is not a regular file")

/-- cli.py `main`, lines 100-109: run `perform_ocr`, and when the returned
path exists copy it to `output_dir / f"ocr_{input_path.name}"`. -/
def cliOcrStep (env : Env) (s : PDFParser) (outDir : FPath) (st : PyState) :
    Except PyExn (FPath × PyState) :=
  let r := PDFParser.perform_ocr env s st
  if r.2.fs.pathExists r.1 then
    match r.2.fs.copy2 r.1 (outDir ++ ["ocr_" ++ pathName env.pdfPath]) with
    | .ok fs => .ok (r.1, { r.2 with fs := fs })
    | .error e => .error e
  else .ok (r.1, r.2)

/-- gui.py `WorkerThread.run`, lines 41-48: the same logic with the same
destination name `output_dir / f"ocr_{Path(self.pdf_path).name}"`. -/
def guiOcrStep (env : Env) (s : PDFParser) (outDir : FPath) (st : PyState) :
    Except PyExn (FPath × PyState) :=
  let r := PDFParser.perform_ocr env s st
  if r.2.fs.pathExists r.1 then
    match r.2.fs.copy2 r.1 (outDir ++ ["ocr_" ++ pathName env.pdfPath]) with
    | .ok fs => .ok (r.1, { r.2 with fs := fs })
    | .error e => .error e
  else .ok (r.1, r.2)

/-! ## Path facts -/

theorem append_singleton_inj {t : FPath} {a b : String}
    (h : t ++ [a] = t ++ [b]) : a = b := by
  have := List.append_cancel_left h
  simpa using this

theorem append_singleton_ne (t : FPath) {a b : String} (h : a ≠ b) :
    t ++ [a] ≠ t ++ [b] :=
  fun he => h (append_singleton_inj he)

theorem self_ne_append_singleton (t : FPath) (a : String) : t ≠ t ++ [a] := by
  intro h
  have := congrArg List.length h
  simp at this

theorem append_one_ne_append_two (t : FPath) (a b c : String) :
    t ++ [a] ≠ (t ++ [b]) ++ [c] := by
  intro h
  have := congrArg List.length h
  simp at this

theorem isPrefixOf_append (l t : List String) : l.isPrefixOf (l ++ t) = true := by
  simp [List.isPrefixOf_iff_prefix]

theorem isPrefixOf_self (l : List String) : l.isPrefixOf l = true := by
  simp [List.isPrefixOf_iff_prefix]

/-! ## Session invariants -/

/-- The session fields as `__init__` sets them from the environment. -/
def SWf (env : Env) (s : PDFParser) : Prop :=
  s = { pdf_path := env.pdfPath, temp_dir := env.tempDir,
        ocr_path := env.tempDir ++ ["ocr_" ++ pathName env.pdfPath] }

/-- Invariant maintained while `cleanup` has not run: the scratch
directory exists and its `images` entry is not a regular file. -/
def Inv (s : PDFParser) (fs : FS) : Prop :=
  fs.dirs s.temp_dir = true ∧
  (fs.dirs (imagesDir s) = true ∨ fs.files (imagesDir s) = none)

theorem init_ok {env : Env} {s : PDFParser} {st0 : PyState}
    (h : PDFParser.init env = (.ok s, st0)) :
    env.fs0.pathExists env.pdfPath = true ∧ SWf env s ∧
    st0 = { fs := env.fs0.mkdirAdd env.tempDir, trace := [] } := by
  by_cases hex : env.fs0.pathExists env.pdfPath
  · rw [PDFParser.init, if_pos hex] at h
    simp only [Prod.mk.injEq] at h
    obtain ⟨h1, h2⟩ := h
    exact ⟨hex, (Except.ok.inj h1).symm, h2.symm⟩
  · rw [PDFParser.init, if_neg hex] at h
    simp only [Prod.mk.injEq] at h
    exact absurd h.1 (by simp)

theorem init_inv {env : Env} {s : PDFParser} {st0 : PyState}
    (hwf : env.Wf) (h : PDFParser.init env = (.ok s, st0)) : Inv s st0.fs := by
  obtain ⟨_, hs, hst⟩ := init_ok h
  subst hs
  subst hst
  refine ⟨FS.mkdirAdd_dirs_self _ _, Or.inr ?_⟩
  rw [FS.mkdirAdd_files]
  exact hwf.2.1 _ (isPrefixOf_append _ _)

/-! ## Trace predicates -/

/-- Every pdfminer / tabula call recorded in `tr` passes the original
source path of the session. -/
def ReadsOriginal (s : PDFParser) (tr : List Event) : Prop :=
  (∀ p, Event.minerCall p ∈ tr → p = s.pdf_path) ∧
  (∀ p, Event.tabulaCall p ∈ tr → p = s.pdf_path)

theorem ReadsOriginal_nil (s : PDFParser) : ReadsOriginal s [] :=
  ⟨fun p hp => absurd hp (by simp), fun p hp => absurd hp (by simp)⟩

theorem ReadsOriginal_append {s : PDFParser} {tr₁ tr₂ : List Event}
    (h₁ : ReadsOriginal s tr₁) (h₂ : ReadsOriginal s tr₂) :
    ReadsOriginal s (tr₁ ++ tr₂) := by
  constructor
  · intro p hp
    rcases List.mem_append.mp hp with h | h
    · exact h₁.1 p h
    · exact h₂.1 p h
  · intro p hp
    rcases List.mem_append.mp hp with h | h
    · exact h₁.2 p h
    · exact h₂.2 p h

/-! ## The image loops: exact characterization -/

/-- Trace of `_optimize_image` on one file. -/
def imgTrace (env : Env) (p : FPath) : List Event :=
  .gmCall p :: (if env.gmOk p then [] else [.logWarn "image optimization failed"])

/-- Trace of the inner image loop over one page. -/
def pageTrace (env : Env) (idir : FPath) (pn : Nat) :
    Nat → List ImgInfo → List Event
  | _, [] => []
  | idx, info :: rest =>
    imgTrace env (imgEntryPath idir pn idx info) ++
      pageTrace env idir pn (idx + 1) rest

/-- Trace of the page loop over the whole document. -/
def docTrace (env : Env) (idir : FPath) :
    Nat → List (List ImgInfo) → List Event
  | _, [] => []
  | pn, imgs :: rest =>
    pageTrace env idir pn 1 imgs ++ docTrace env idir (pn + 1) rest

theorem applyEntries_append (env : Env) :
    ∀ (a b : List (FPath × ImgInfo)) (fs : FS),
    applyEntries env (a ++ b) fs = applyEntries env b (applyEntries env a fs) := by
  intro a
  induction a with
  | nil => intro b fs; rfl
  | cons e rest ih =>
    intro b fs
    simp only [List.cons_append, applyEntries]
    exact ih b _

theorem imgLoop_eq (env : Env) (idir : FPath) (pn : Nat) :
    ∀ (imgs : List ImgInfo) (idx : Nat) (fs : FS) (tr : List Event) (cnt : Nat),
    imgLoop env idir pn idx imgs ⟨fs, tr⟩ cnt =
      (cnt + imgs.length,
       ⟨applyEntries env (pageEntries idir pn idx imgs) fs,
        tr ++ pageTrace env idir pn idx imgs⟩) := by
  intro imgs
  induction imgs with
  | nil =>
    intro idx fs tr cnt
    simp [imgLoop, pageEntries, pageTrace, applyEntries]
  | cons info rest ih =>
    intro idx fs tr cnt
    by_cases hgm : env.gmOk (imgEntryPath idir pn idx info)
    · simp only [imgEntryPath] at hgm
      simp only [imgLoop, PDFParser.optimize_image, PyState.emit, hgm, if_true]
      rw [FS.writeFile_same, ih]
      simp only [pageEntries, pageTrace, applyEntries, entryData, imgTrace,
        imgEntryPath, hgm, if_true, Prod.mk.injEq, PyState.mk.injEq,
        List.length_cons, List.append_assoc, List.singleton_append,
        List.cons_append, List.nil_append]
      exact ⟨by omega, trivial⟩
    · simp only [imgEntryPath] at hgm
      rw [Bool.not_eq_true] at hgm
      simp only [imgLoop, PDFParser.optimize_image, PyState.emit, hgm,
        Bool.false_eq_true, if_false]
      rw [ih]
      simp only [pageEntries, pageTrace, applyEntries, entryData, imgTrace,
        imgEntryPath, hgm, Bool.false_eq_true, if_false, Prod.mk.injEq,
        PyState.mk.injEq, List.length_cons, List.append_assoc,
        List.singleton_append, List.cons_append, List.nil_append]
      exact ⟨by omega, trivial⟩

theorem pagesLoop_eq (env : Env) (idir : FPath) :
    ∀ (pages : List (List ImgInfo)) (pn : Nat) (fs : FS) (tr : List Event) (cnt : Nat),
    pagesLoop env idir pn pages ⟨fs, tr⟩ cnt =
      (cnt + (pages.map List.length).sum,
       ⟨applyEntries env (docEntries idir pn pages) fs,
        tr ++ docTrace env idir pn pages⟩) := by
  intro pages
  induction pages with
  | nil =>
    intro pn fs tr cnt
    simp [pagesLoop, docEntries, docTrace, applyEntries]
  | cons imgs rest ih =>
    intro pn fs tr cnt
    rw [pagesLoop, imgLoop_eq, ih]
    simp only [docEntries, docTrace, Prod.mk.injEq, PyState.mk.injEq,
      List.map_cons, List.sum_cons, List.append_assoc]
    exact ⟨by omega, (applyEntries_append env _ _ fs).symm, trivial⟩

theorem applyEntries_dirs (env : Env) :
    ∀ (es : List (FPath × ImgInfo)) (fs : FS),
    (applyEntries env es fs).dirs = fs.dirs := by
  intro es
  induction es with
  | nil => intro fs; rfl
  | cons e rest ih =>
    intro fs
    simp only [applyEntries, ih, FS.writeFile_dirs]

theorem pageTrace_events (env : Env) (idir : FPath) (pn : Nat) :
    ∀ (imgs : List ImgInfo) (idx : Nat) (e : Event),
    e ∈ pageTrace env idir pn idx imgs →
    (∃ p, e = .gmCall p) ∨ (∃ m, e = .logWarn m) := by
  intro imgs
  induction imgs with
  | nil =>
    intro idx e he
    simp [pageTrace] at he
  | cons info rest ih =>
    intro idx e he
    rw [pageTrace] at he
    rcases List.mem_append.mp he with h | h
    · rw [imgTrace] at h
      rcases List.mem_cons.mp h with h | h
      · exact Or.inl ⟨_, h⟩
      · by_cases hgm : env.gmOk (imgEntryPath idir pn idx info)
        · simp [hgm] at h
        · rw [Bool.not_eq_true] at hgm
          simp [hgm] at h
          exact Or.inr ⟨_, h⟩
    · exact ih (idx + 1) e h

theorem docTrace_events (env : Env) (idir : FPath) :
    ∀ (pages : List (List ImgInfo)) (pn : Nat) (e : Event),
    e ∈ docTrace env idir pn pages →
    (∃ p, e = .gmCall p) ∨ (∃ m, e = .logWarn m) := by
  intro pages
  induction pages with
  | nil =>
    intro pn e he
    simp [docTrace] at he
  | cons imgs rest ih =>
    intro pn e he
    rw [docTrace] at he
    rcases List.mem_append.mp he with h | h
    · exact pageTrace_events env idir pn imgs 1 e h
    · exact ih (pn + 1) e h

theorem imagesDir_dropLast (s : PDFParser) : (imagesDir s).dropLast = s.temp_dir := by
  simp [imagesDir]

/-- Under the session invariant, the `mkdir(exist_ok=True)` of the images
subdirectory succeeds and its effect is recording the directory. -/
theorem mkdirStatus_inv {s : PDFParser} {fs : FS} (hInv : Inv s fs) :
    fs.mkdirStatus (imagesDir s) = .ok (fs.mkdirAdd (imagesDir s)) := by
  obtain ⟨htemp, hidir⟩ := hInv
  by_cases hd : fs.dirs (imagesDir s) = true
  · rw [FS.mkdirStatus, if_pos hd, FS.mkdirAdd_self fs _ hd]
  · rcases hidir with h | h
    · exact absurd h hd
    · rw [Bool.not_eq_true] at hd
      rw [FS.mkdirStatus]
      simp [hd, h, imagesDir_dropLast, htemp]

/-- Under the session invariant, one operation returns `opValue`, has the
file-system effect `applyOp`, and appends a trace whose pdfminer/tabula
calls all read the original source. -/
theorem runOp_eq (env : Env) (s : PDFParser) (o : Op) (fs : FS) (tr : List Event)
    (hInv : Inv s fs) :
    ∃ tr', runOp env s o ⟨fs, tr⟩ =
        .ok (opValue env s o, ⟨applyOp env s o fs, tr ++ tr'⟩) ∧
      ReadsOriginal s tr' := by
  cases o with
  | ocr =>
    by_cases hoc : env.ocrOk s.pdf_path s.ocr_path
    · refine ⟨[.logInfo "start OCR", .ocrCall s.pdf_path s.ocr_path,
        .logInfo "OCR done"], ?_, ?_⟩
      · simp [runOp, PDFParser.perform_ocr, PyState.emit, applyOp, opValue, hoc]
      · constructor <;> intro p hp <;> simp at hp
    · rw [Bool.not_eq_true] at hoc
      refine ⟨[.logInfo "start OCR", .ocrCall s.pdf_path s.ocr_path,
        .logError ("OCR failed: " ++ env.ocrErr)], ?_, ?_⟩
      · simp [runOp, PDFParser.perform_ocr, PyState.emit, applyOp, opValue, hoc]
      · constructor <;> intro p hp <;> simp at hp
  | text =>
    cases hm : env.miner s.pdf_path with
    | ok t =>
      refine ⟨[.logInfo "PDFMiner text", .minerCall s.pdf_path], ?_, ?_⟩
      · simp [runOp, PDFParser.extract_text_with_pdfminer, PyState.emit,
          applyOp, opValue, hm]
      · constructor <;> intro p hp <;> simp at hp
        exact hp
    | error e =>
      refine ⟨[.logInfo "PDFMiner text", .minerCall s.pdf_path,
        .logError ("text extraction failed: " ++ e)], ?_, ?_⟩
      · simp [runOp, PDFParser.extract_text_with_pdfminer, PyState.emit,
          applyOp, opValue, hm]
      · constructor <;> intro p hp <;> simp at hp
        exact hp
  | structured =>
    cases hm : env.partitionPdf s.pdf_path with
    | ok es =>
      refine ⟨[.logInfo "start structured extraction", .partitionCall s.pdf_path],
        ?_, ?_⟩
      · simp [runOp, PDFParser.extract_structured_content, PyState.emit,
          applyOp, opValue, hm]
      · constructor <;> intro p hp <;> simp at hp
    | error e =>
      refine ⟨[.logInfo "start structured extraction", .partitionCall s.pdf_path,
        .logError ("structured extraction failed: " ++ e)], ?_, ?_⟩
      · simp [runOp, PDFParser.extract_structured_content, PyState.emit,
          applyOp, opValue, hm]
      · constructor <;> intro p hp <;> simp at hp
  | tables =>
    cases ht : env.tabula s.pdf_path with
    | error e =>
      refine ⟨[.logInfo "start table extraction", .tabulaCall s.pdf_path,
        .logError ("table extraction failed: " ++ e)], ?_, ?_⟩
      · simp [runOp, PDFParser.extract_tables, PyState.emit, applyOp, opValue, ht]
      · constructor <;> intro p hp <;> simp at hp
        exact hp
    | ok ts =>
      by_cases he : ts.isEmpty
      · refine ⟨[.logInfo "start table extraction", .tabulaCall s.pdf_path], ?_, ?_⟩
        · simp [runOp, PDFParser.extract_tables, PyState.emit, applyOp, opValue,
            ht, he]
        · constructor <;> intro p hp <;> simp at hp
          exact hp
      · rw [Bool.not_eq_true] at he
        refine ⟨[.logInfo "start table extraction", .tabulaCall s.pdf_path,
          .logInfo "tables written"], ?_, ?_⟩
        · simp [runOp, PDFParser.extract_tables, PyState.emit, applyOp, opValue,
            ht, he, hInv.1]
        · constructor <;> intro p hp <;> simp at hp
          exact hp
  | images =>
    have hmk := mkdirStatus_inv hInv
    cases hf : env.fitzPages s.pdf_path with
    | error e =>
      refine ⟨[.logInfo "start image extraction", .fitzOpen s.pdf_path,
        .logError ("image extraction failed: " ++ e)], ?_, ?_⟩
      · simp only [runOp, PDFParser.extract_images, PyState.emit, imagesDir] at hmk ⊢
        rw [hmk]
        simp [hf, applyOp, opValue, imagesDir, Except.map]
      · constructor <;> intro p hp <;> simp at hp
    | ok pages =>
      refine ⟨[.logInfo "start image extraction", .fitzOpen s.pdf_path] ++
        docTrace env (imagesDir s) 1 pages ++
        [.logInfo ("extracted " ++ natStr ((pages.map List.length).sum) ++ " images")],
        ?_, ?_⟩
      · simp only [runOp, PDFParser.extract_images, PyState.emit, imagesDir] at hmk ⊢
        rw [hmk]
        simp [hf, pagesLoop_eq, applyOp, opValue, imagesDir, List.append_assoc,
          Except.map]
      · constructor <;> intro p hp <;>
        · simp only [List.append_assoc, List.mem_append, List.mem_cons,
            List.mem_singleton] at hp
          rcases hp with (hp | hp) | hp | hp
          · simp at hp
          · simp at hp
          · rcases docTrace_events env (imagesDir s) pages 1 _ hp with ⟨q, hq⟩ | ⟨m, hm⟩
            · simp at hq
            · simp at hm
          · simp at hp

/-- Each operation preserves the session invariant. -/
theorem applyOp_inv (env : Env) {s : PDFParser} (hs : SWf env s) (o : Op) {fs : FS}
    (hInv : Inv s fs) : Inv s (applyOp env s o fs) := by
  obtain ⟨h1, h2⟩ := hInv
  cases o with
  | text => exact ⟨h1, h2⟩
  | structured => exact ⟨h1, h2⟩
  | ocr =>
    by_cases hoc : env.ocrOk s.pdf_path s.ocr_path
    · rw [SWf] at hs
      subst hs
      simp only [applyOp, hoc, if_true]
      refine ⟨h1, ?_⟩
      rcases h2 with h | h
      · exact Or.inl h
      · refine Or.inr ?_
        rw [FS.writeFile_files_ne]
        · exact h
        · exact append_singleton_ne _ (fun hc => ocr_name_ne_images _ hc.symm)
    · rw [Bool.not_eq_true] at hoc
      simp only [applyOp, hoc, Bool.false_eq_true, if_false]
      exact ⟨h1, h2⟩
  | tables =>
    cases ht : env.tabula s.pdf_path with
    | error e =>
      simp only [applyOp, ht]
      exact ⟨h1, h2⟩
    | ok ts =>
      by_cases he : ts.isEmpty
      · simp only [applyOp, ht, he, if_true]
        exact ⟨h1, h2⟩
      · rw [Bool.not_eq_true] at he
        rw [SWf] at hs
        subst hs
        simp only [applyOp, ht, he, Bool.false_eq_true, if_false, h1, if_true]
        refine ⟨h1, ?_⟩
        rcases h2 with h | h
        · exact Or.inl h
        · refine Or.inr ?_
          rw [FS.writeFile_files_ne]
          · exact h
          · refine append_singleton_ne _ (fun hc => ?_)
            rw [String.append_assoc] at hc
            exact tables_name_ne_images _ hc.symm
  | images =>
    cases hf : env.fitzPages s.pdf_path with
    | error e =>
      simp only [applyOp, hf]
      constructor
      · rw [FS.mkdirAdd_dirs_ne fs (imagesDir s) s.temp_dir
          (self_ne_append_singleton s.temp_dir "images")]
        exact h1
      · exact Or.inl (FS.mkdirAdd_dirs_self fs _)
    | ok pages =>
      simp only [applyOp, hf]
      constructor
      · rw [applyEntries_dirs, FS.mkdirAdd_dirs_ne fs (imagesDir s) s.temp_dir
          (self_ne_append_singleton s.temp_dir "images")]
        exact h1
      · refine Or.inl ?_
        rw [applyEntries_dirs]
        exact FS.mkdirAdd_dirs_self fs _

theorem applyOps_inv (env : Env) {s : PDFParser} (hs : SWf env s) :
    ∀ (l : List Op) {fs : FS}, Inv s fs → Inv s (applyOps env s l fs) := by
  intro l
  induction l with
  | nil => intro fs h; exact h
  | cons o rest ih =>
    intro fs h
    exact ih (applyOp_inv env hs o h)

/-- Under the session invariant, a whole operation sequence never raises,
returns exactly the per-operation `opValue`s, and has the composite
file-system effect `applyOps`. -/
theorem runOps_eq (env : Env) {s : PDFParser} (hs : SWf env s) :
    ∀ (l : List Op) (fs : FS) (tr : List Event), Inv s fs →
    ∃ tr', runOps env s l ⟨fs, tr⟩ =
        .ok (l.map (opValue env s), ⟨applyOps env s l fs, tr ++ tr'⟩) ∧
      ReadsOriginal s tr' := by
  intro l
  induction l with
  | nil =>
    intro fs tr h
    exact ⟨[], by simp [runOps, applyOps], ReadsOriginal_nil s⟩
  | cons o rest ih =>
    intro fs tr h
    obtain ⟨tr₁, h1, hr1⟩ := runOp_eq env s o fs tr h
    obtain ⟨tr₂, h2, hr2⟩ := ih (applyOp env s o fs) (tr ++ tr₁) (applyOp_inv env hs o h)
    refine ⟨tr₁ ++ tr₂, ?_, ReadsOriginal_append hr1 hr2⟩
    rw [runOps, h1]
    simp only []
    rw [h2]
    simp [applyOps, List.append_assoc]

/-! ## The written image files: counting, naming, contents -/

theorem pageEntries_length (idir : FPath) (pn : Nat) :
    ∀ (imgs : List ImgInfo) (idx : Nat),
    (pageEntries idir pn idx imgs).length = imgs.length := by
  intro imgs
  induction imgs with
  | nil => intro idx; rfl
  | cons info rest ih =>
    intro idx
    simp only [pageEntries, List.length_cons, ih]

theorem docEntries_length (idir : FPath) :
    ∀ (pages : List (List ImgInfo)) (pn : Nat),
    (docEntries idir pn pages).length = (pages.map List.length).sum := by
  intro pages
  induction pages with
  | nil => intro pn; rfl
  | cons imgs rest ih =>
    intro pn
    simp only [docEntries, List.length_append, pageEntries_length, ih,
      List.map_cons, List.sum_cons]

theorem pageEntries_keys (idir : FPath) (pn : Nat) :
    ∀ (imgs : List ImgInfo) (idx : Nat) (p : FPath),
    p ∈ (pageEntries idir pn idx imgs).map Prod.fst →
    ∃ j ext, idx ≤ j ∧ p = idir ++ [imgFileName pn j ext] := by
  intro imgs
  induction imgs with
  | nil =>
    intro idx p hp
    simp [pageEntries] at hp
  | cons info rest ih =>
    intro idx p hp
    simp only [pageEntries, List.map_cons, List.mem_cons] at hp
    rcases hp with h | h
    · exact ⟨idx, info.ext, le_refl idx, h⟩
    · obtain ⟨j, ext, hj, hpe⟩ := ih (idx + 1) p h
      exact ⟨j, ext, by omega, hpe⟩

theorem docEntries_keys (idir : FPath) :
    ∀ (pages : List (List ImgInfo)) (pn : Nat) (p : FPath),
    p ∈ (docEntries idir pn pages).map Prod.fst →
    ∃ i j ext, pn ≤ i ∧ 1 ≤ j ∧ p = idir ++ [imgFileName i j ext] := by
  intro pages
  induction pages with
  | nil =>
    intro pn p hp
    simp [docEntries] at hp
  | cons imgs rest ih =>
    intro pn p hp
    simp only [docEntries, List.map_append, List.mem_append] at hp
    rcases hp with h | h
    · obtain ⟨j, ext, hj, hpe⟩ := pageEntries_keys idir pn imgs 1 p h
      exact ⟨pn, j, ext, le_refl pn, hj, hpe⟩
    · obtain ⟨i, j, ext, hi, hj, hpe⟩ := ih (pn + 1) p h
      exact ⟨i, j, ext, by omega, hj, hpe⟩

theorem pageEntries_nodup (idir : FPath) (pn : Nat) :
    ∀ (imgs : List ImgInfo) (idx : Nat),
    ((pageEntries idir pn idx imgs).map Prod.fst).Nodup := by
  intro imgs
  induction imgs with
  | nil => intro idx; simp [pageEntries]
  | cons info rest ih =>
    intro idx
    simp only [pageEntries, List.map_cons, List.nodup_cons]
    refine ⟨?_, ih (idx + 1)⟩
    intro hmem
    obtain ⟨j, ext, hj, hpe⟩ := pageEntries_keys idir pn rest (idx + 1) _ hmem
    have := (imgFileName_inj (append_singleton_inj hpe)).2
    omega

theorem docEntries_nodup (idir : FPath) :
    ∀ (pages : List (List ImgInfo)) (pn : Nat),
    ((docEntries idir pn pages).map Prod.fst).Nodup := by
  intro pages
  induction pages with
  | nil => intro pn; simp [docEntries]
  | cons imgs rest ih =>
    intro pn
    simp only [docEntries, List.map_append]
    refine List.Nodup.append (pageEntries_nodup idir pn imgs 1) (ih (pn + 1)) ?_
    intro p hp1 hp2
    obtain ⟨j, ext, _, hpe1⟩ := pageEntries_keys idir pn imgs 1 p hp1
    obtain ⟨i, j', ext', hi, _, hpe2⟩ := docEntries_keys idir rest (pn + 1) p hp2
    have := (imgFileName_inj (append_singleton_inj (hpe1.symm.trans hpe2))).1
    omega

theorem applyEntries_files_notin (env : Env) :
    ∀ (es : List (FPath × ImgInfo)) (fs : FS) (p : FPath),
    p ∉ es.map Prod.fst → (applyEntries env es fs).files p = fs.files p := by
  intro es
  induction es with
  | nil => intro fs p _; rfl
  | cons e rest ih =>
    intro fs p hp
    simp only [List.map_cons, List.mem_cons] at hp
    push_neg at hp
    rw [applyEntries, ih _ _ hp.2, FS.writeFile_files_ne _ _ _ _ hp.1]

theorem applyEntries_files_mem (env : Env) :
    ∀ (es : List (FPath × ImgInfo)) (fs : FS) (p : FPath) (info : ImgInfo),
    (es.map Prod.fst).Nodup → (p, info) ∈ es →
    (applyEntries env es fs).files p = some (entryData env p info) := by
  intro es
  induction es with
  | nil =>
    intro fs p info _ hmem
    simp at hmem
  | cons e rest ih =>
    intro fs p info hnd hmem
    simp only [List.map_cons, List.nodup_cons] at hnd
    rcases List.mem_cons.mp hmem with h | h
    · have hp : e.1 = p := by rw [← h]
      rw [applyEntries, applyEntries_files_notin env rest _ p (hp ▸ hnd.1), hp,
        FS.writeFile_files_self]
      rw [← h]
    · rw [applyEntries]
      exact ih _ p info hnd.2 h

theorem applyEntries_writeFile (env : Env) :
    ∀ (es : List (FPath × ImgInfo)) (fs : FS) (p : FPath) (c : FileData),
    p ∉ es.map Prod.fst →
    applyEntries env es (fs.writeFile p c) = (applyEntries env es fs).writeFile p c := by
  intro es
  induction es with
  | nil => intro fs p c _; rfl
  | cons e rest ih =>
    intro fs p c hp
    simp only [List.map_cons, List.mem_cons] at hp
    push_neg at hp
    rw [applyEntries, applyEntries,
      FS.writeFile_comm fs p e.1 c _ hp.1, ih _ _ _ hp.2]

/-! ## Commutation of the operations' effects -/

theorem ocrPath_ne_tablesPath (env : Env) {s : PDFParser} (hs : SWf env s) :
    s.ocr_path ≠ tablesPath s := by
  rw [SWf] at hs
  subst hs
  simp only [tablesPath]
  refine append_singleton_ne _ (fun hc => ?_)
  rw [String.append_assoc] at hc
  exact ocr_name_ne_tables _ _ hc

theorem ocrPath_notin_docEntries (env : Env) {s : PDFParser} (hs : SWf env s)
    (pages : List (List ImgInfo)) (pn : Nat) :
    s.ocr_path ∉ (docEntries (imagesDir s) pn pages).map Prod.fst := by
  intro hmem
  obtain ⟨i, j, ext, _, _, heq⟩ := docEntries_keys (imagesDir s) pages pn _ hmem
  rw [SWf] at hs
  subst hs
  simp only [imagesDir] at heq
  exact append_one_ne_append_two _ _ _ _ heq

theorem tablesPath_notin_docEntries (s : PDFParser)
    (pages : List (List ImgInfo)) (pn : Nat) :
    tablesPath s ∉ (docEntries (imagesDir s) pn pages).map Prod.fst := by
  intro hmem
  obtain ⟨i, j, ext, _, _, heq⟩ := docEntries_keys (imagesDir s) pages pn _ hmem
  simp only [imagesDir, tablesPath] at heq
  exact append_one_ne_append_two _ _ _ _ heq

theorem applyOp_comm_ocr_tables (env : Env) {s : PDFParser} (hs : SWf env s) (fs : FS) :
    applyOp env s .ocr (applyOp env s .tables fs) =
      applyOp env s .tables (applyOp env s .ocr fs) := by
  by_cases hoc : env.ocrOk s.pdf_path s.ocr_path
  · cases ht : env.tabula s.pdf_path with
    | error e => simp [applyOp, ht]
    | ok ts =>
      by_cases he : ts.isEmpty
      · simp [applyOp, ht, he]
      · rw [Bool.not_eq_true] at he
        simp only [applyOp, ht, he, hoc, if_true, Bool.false_eq_true, if_false,
          FS.writeFile_dirs]
        by_cases hd : fs.dirs s.temp_dir = true
        · simp only [hd, if_true]
          exact FS.writeFile_comm fs _ _ _ _ (fun hc => ocrPath_ne_tablesPath env hs hc.symm)
        · rw [if_neg hd, if_neg hd]
  · rw [Bool.not_eq_true] at hoc
    simp only [applyOp, hoc, Bool.false_eq_true, if_false]

theorem applyOp_comm_ocr_images (env : Env) {s : PDFParser} (hs : SWf env s) (fs : FS) :
    applyOp env s .ocr (applyOp env s .images fs) =
      applyOp env s .images (applyOp env s .ocr fs) := by
  by_cases hoc : env.ocrOk s.pdf_path s.ocr_path
  · cases hf : env.fitzPages s.pdf_path with
    | error e =>
      simp only [applyOp, hf, hoc, if_true]
      exact (FS.mkdirAdd_writeFile fs _ _ _).symm
    | ok pages =>
      simp only [applyOp, hf, hoc, if_true]
      rw [FS.mkdirAdd_writeFile,
        applyEntries_writeFile env _ _ _ _ (ocrPath_notin_docEntries env hs pages 1)]
  · rw [Bool.not_eq_true] at hoc
    simp only [applyOp, hoc, Bool.false_eq_true, if_false]

theorem applyOp_comm_tables_images (env : Env) {s : PDFParser} (hs : SWf env s) (fs : FS) :
    applyOp env s .tables (applyOp env s .images fs) =
      applyOp env s .images (applyOp env s .tables fs) := by
  cases ht : env.tabula s.pdf_path with
  | error e => simp [applyOp, ht]
  | ok ts =>
    by_cases he : ts.isEmpty
    · simp [applyOp, ht, he]
    · rw [Bool.not_eq_true] at he
      cases hf : env.fitzPages s.pdf_path with
      | error e2 =>
        simp only [applyOp, hf, ht, he, Bool.false_eq_true, if_false]
        rw [FS.mkdirAdd_dirs_ne fs (imagesDir s) s.temp_dir
          (self_ne_append_singleton s.temp_dir "images")]
        by_cases hd : fs.dirs s.temp_dir = true
        · simp only [hd, if_true]
          exact (FS.mkdirAdd_writeFile fs _ _ _).symm
        · rw [if_neg hd, if_neg hd]
      | ok pages =>
        simp only [applyOp, hf, ht, he, Bool.false_eq_true, if_false]
        rw [applyEntries_dirs, FS.mkdirAdd_dirs_ne fs (imagesDir s) s.temp_dir
          (self_ne_append_singleton s.temp_dir "images")]
        by_cases hd : fs.dirs s.temp_dir = true
        · simp only [hd, if_true]
          rw [FS.mkdirAdd_writeFile,
            applyEntries_writeFile env _ _ _ _ (tablesPath_notin_docEntries s pages 1)]
        · rw [if_neg hd, if_neg hd]

/-- Any two operations' file-system effects commute. -/
theorem applyOp_comm (env : Env) {s : PDFParser} (hs : SWf env s) (a b : Op) (fs : FS) :
    applyOp env s a (applyOp env s b fs) = applyOp env s b (applyOp env s a fs) := by
  cases a <;> cases b <;>
    first
      | rfl
      | exact applyOp_comm_ocr_tables env hs fs
      | exact (applyOp_comm_ocr_tables env hs fs).symm
      | exact applyOp_comm_ocr_images env hs fs
      | exact (applyOp_comm_ocr_images env hs fs).symm
      | exact applyOp_comm_tables_images env hs fs
      | exact (applyOp_comm_tables_images env hs fs).symm

/-- The composite file-system effect of an operation list is invariant
under permutation. -/
theorem applyOps_perm (env : Env) {s : PDFParser} (hs : SWf env s)
    {l₁ l₂ : List Op} (h : l₁.Perm l₂) :
    ∀ fs, applyOps env s l₁ fs = applyOps env s l₂ fs := by
  induction h with
  | nil => intro fs; rfl
  | cons x _ ih => intro fs; exact ih (applyOp env s x fs)
  | swap x y l =>
    intro fs
    show applyOps env s l _ = applyOps env s l _
    rw [applyOp_comm env hs x y fs]
  | trans _ _ ih₁ ih₂ => intro fs; rw [ih₁ fs, ih₂ fs]

/-! ## Totality of call sequences -/

/-- Operations other than `extract_images` never raise, whatever the
state: all their failure points sit inside `try` blocks. -/
theorem runFullOps_all_no_images (env : Env) (s : PDFParser) :
    ∀ (l : List FullOp), l.all (fun x => x != .op .images) = true →
    ∀ st, ∃ st', runFullOps env s l st = .ok st' := by
  intro l
  induction l with
  | nil => intro _ st; exact ⟨st, rfl⟩
  | cons x rest ih =>
    intro hall st
    rw [List.all_cons, Bool.and_eq_true] at hall
    cases x with
    | cleanup => exact ih hall.2 _
    | op o =>
      cases o with
      | images => simp at hall
      | ocr => exact ih hall.2 _
      | text => exact ih hall.2 _
      | tables => exact ih hall.2 _
      | structured => exact ih hall.2 _

/-- No `extract_images` call occurs after a `cleanup` call. -/
def noImagesAfterCleanup : List FullOp → Bool
  | [] => true
  | .cleanup :: rest => rest.all (fun x => x != .op .images)
  | .op _ :: rest => noImagesAfterCleanup rest

theorem runFullOps_safe (env : Env) {s : PDFParser} (hs : SWf env s) :
    ∀ (l : List FullOp), noImagesAfterCleanup l = true →
    ∀ (fs : FS) (tr : List Event), Inv s fs →
    ∃ st', runFullOps env s l ⟨fs, tr⟩ = .ok st' := by
  intro l
  induction l with
  | nil => intro _ fs tr _; exact ⟨⟨fs, tr⟩, rfl⟩
  | cons x rest ih =>
    intro hsafe fs tr hInv
    cases x with
    | cleanup =>
      simp only [noImagesAfterCleanup] at hsafe
      exact runFullOps_all_no_images env s rest hsafe _
    | op o =>
      simp only [noImagesAfterCleanup] at hsafe
      obtain ⟨tr', h1, _⟩ := runOp_eq env s o fs tr hInv
      obtain ⟨st', h2⟩ := ih hsafe (applyOp env s o fs) (tr ++ tr')
        (applyOp_inv env hs o hInv)
      refine ⟨st', ?_⟩
      rw [runFullOps, h1]
      exact h2

/-! ## Miscellaneous consequences -/

theorem sheetsOf_length : ∀ (ts : List Table) (i : Nat),
    (sheetsOf i ts).length = ts.length := by
  intro ts
  induction ts with
  | nil => intro i; rfl
  | cons t rest ih =>
    intro i
    simp only [sheetsOf, List.length_cons, ih]

theorem sheetsOf_getElem :
    ∀ (ts : List Table) (i j : Nat),
    (sheetsOf i ts)[j]? = (ts[j]?).map (fun t => ("Table_" ++ natStr (i + j), t)) := by
  intro ts
  induction ts with
  | nil => intro i j; simp [sheetsOf]
  | cons t rest ih =>
    intro i j
    cases j with
    | zero => simp [sheetsOf]
    | succ k =>
      simp only [sheetsOf, List.getElem?_cons_succ, ih (i + 1) k]
      have harith : i + 1 + k = i + (k + 1) := by omega
      rw [harith]

theorem isPrefixOf_trans {a b c : List String} (h1 : a.isPrefixOf b = true)
    (h2 : b.isPrefixOf c = true) : a.isPrefixOf c = true := by
  simp only [List.isPrefixOf_iff_prefix] at h1 h2 ⊢
  exact h1.trans h2

theorem removeTree_files_under (fs : FS) (root p : FPath)
    (h : root.isPrefixOf p = true) : (fs.removeTree root).files p = none := by
  have h2 : root <+: p := List.isPrefixOf_iff_prefix.mp h
  simp [FS.removeTree, h2]

theorem removeTree_dirs_under (fs : FS) (root p : FPath)
    (h : root.isPrefixOf p = true) : (fs.removeTree root).dirs p = false := by
  have h2 : root <+: p := List.isPrefixOf_iff_prefix.mp h
  simp [FS.removeTree, h2]

/-! ## Concrete environments for witnesses and counterexamples -/

/-- A concrete environment: one source file `a` containing `pdfbytes`,
scratch directory `t`; OCR fails, two pages with one embedded image each,
two detected tables, image optimization fails. -/
def envA : Env :=
  { pdfPath := ["a"],
    tempDir := ["t"],
    fs0 := { dirs := fun _ => false,
             files := fun q => if q = ["a"] then some (.raw "pdfbytes") else none },
    ocrOk := fun _ _ => false,
    ocrOut := fun _ _ => "",
    ocrErr := "ocr engine failure",
    miner := fun _ => .ok "hello",
    fitzPages := fun _ => .ok [[⟨"b1", "png"⟩], [⟨"b2", "jpg"⟩]],
    gmOk := fun _ => false,
    gmOut := fun _ => "optimized",
    tabula := fun _ => .ok [[["c1"]], [["c2"]]],
    partitionPdf := fun _ => .ok ["Title"] }

/-- The session `__init__` builds from `envA`. -/
def sA : PDFParser :=
  { pdf_path := ["a"], temp_dir := ["t"], ocr_path := ["t", "ocr_a"] }

/-- The world right after construction from `envA`. -/
def st0A : PyState := { fs := envA.fs0.mkdirAdd ["t"], trace := [] }

theorem envA_wf : envA.Wf := by
  refine ⟨rfl, ?_, ?_, rfl⟩
  · intro p hp
    have hne : p ≠ ["a"] := by
      intro he
      subst he
      exact absurd hp (by decide)
    simp [envA, hne]
  · intro p _ _
    rfl

/-- An environment whose source path names an existing directory, not a
regular file. -/
def envDir : Env :=
  { envA with
    pdfPath := ["d"],
    fs0 := { dirs := fun q => q == ["d"], files := fun _ => none } }

/-! ## The claims -/

/-- C1 counterexample: after `cleanup` has removed the scratch directory,
calling `extract_images` raises `FileNotFoundError`: its
`images_dir.mkdir(exist_ok=True)` (with `parents=False` and the parent
directory gone) sits outside the `try` block.  This contradicts the claim
that no call sequence, including calls after cleanup, ever raises. -/
theorem C1_counterexample :
    PDFParser.init envA = (.ok sA, st0A) ∧
    runFullOps envA sA [.cleanup, .op .images] st0A =
      .error (.fileNotFound "mkdir: parent directory does not exist") :=
  ⟨rfl, rfl⟩

/-- C1 (amended): for a successfully constructed session, a call sequence
never raises provided no `extract_images` call follows a `cleanup`; every
other underlying error is caught and degraded.  (As the counterexample
shows, `extract_images` after `cleanup` raises, because its `mkdir` of the
images subdirectory is outside the `try` block.) -/
theorem C1_no_raise_amended (env : Env) (s : PDFParser) (st0 : PyState)
    (hwf : env.Wf) (hinit : PDFParser.init env = (.ok s, st0))
    (l : List FullOp) (hsafe : noImagesAfterCleanup l = true) :
    ∃ st', runFullOps env s l st0 = .ok st' := by
  obtain ⟨_, hs, hst⟩ := init_ok hinit
  have hInv := init_inv hwf hinit
  obtain ⟨st', h⟩ := runFullOps_safe env hs l hsafe st0.fs st0.trace hInv
  exact ⟨st', h⟩

theorem C1_witness :
    ∃ st', runFullOps envA sA [.op .images, .cleanup] st0A = .ok st' :=
  C1_no_raise_amended envA sA st0A envA_wf rfl [.op .images, .cleanup] rfl

/-- C2 counterexample: a source path that resolves to an existing
directory — hence not to an existing file — for which construction
nevertheless succeeds (Python's `Path.exists()` is true for directories)
and the scratch directory is created. -/
theorem C2_counterexample :
    envDir.fs0.files envDir.pdfPath = none ∧
    envDir.fs0.dirs envDir.pdfPath = true ∧
    ∃ s st, PDFParser.init envDir = (.ok s, st) :=
  ⟨rfl, rfl, ⟨_, _, rfl⟩⟩

/-- C2 (amended): construction fails with a FileNotFound error — touching
nothing, so no scratch directory is created — exactly when the source path
resolves to neither an existing file nor an existing directory; when the
path exists, construction never raises and allocates a fresh, empty
scratch directory. -/
theorem C2_init_amended (env : Env) (hwf : env.Wf) :
    (env.fs0.pathExists env.pdfPath = true →
      ∃ s, PDFParser.init env =
          (.ok s, { fs := env.fs0.mkdirAdd env.tempDir, trace := [] }) ∧
        SWf env s ∧
        (env.fs0.mkdirAdd env.tempDir).dirs env.tempDir = true ∧
        env.fs0.dirs env.tempDir = false ∧
        (∀ p, env.tempDir.isPrefixOf p = true →
          (env.fs0.mkdirAdd env.tempDir).files p = none) ∧
        (∀ p, env.tempDir.isPrefixOf p = true → p ≠ env.tempDir →
          (env.fs0.mkdirAdd env.tempDir).dirs p = false)) ∧
    (env.fs0.pathExists env.pdfPath = false →
      ∃ m, PDFParser.init env =
        (.error (.fileNotFound m), { fs := env.fs0, trace := [] })) := by
  constructor
  · intro hex
    refine ⟨{ pdf_path := env.pdfPath, temp_dir := env.tempDir,
              ocr_path := env.tempDir ++ ["ocr_" ++ pathName env.pdfPath] },
      by rw [PDFParser.init, if_pos hex], rfl,
      FS.mkdirAdd_dirs_self _ _, hwf.1, ?_, ?_⟩
    · intro p hp
      rw [FS.mkdirAdd_files]
      exact hwf.2.1 p hp
    · intro p hp hne
      rw [FS.mkdirAdd_dirs_ne _ _ _ hne]
      exact hwf.2.2.1 p hp hne
  · intro hex
    exact ⟨"PDF file does not exist", by rw [PDFParser.init, if_neg (by simp [hex])]⟩

theorem C2_witness :
    ∃ s, PDFParser.init envA =
      (.ok s, { fs := envA.fs0.mkdirAdd ["t"], trace := [] }) := by
  obtain ⟨s, h, _⟩ := (C2_init_amended envA envA_wf).1 rfl
  exact ⟨s, h⟩

/-- C3: `extract_tables` returns an absent result, writing nothing, when
the detector fails or detects zero tables; with N ≥ 1 detected tables it
writes one workbook at `temp_dir/tables_<stem>.xlsx` inside the scratch
directory, holding exactly one sheet `Table_i` per detected table, touches
no other file, and returns the workbook path. -/
theorem C3_extract_tables (env : Env) (s : PDFParser) (st0 : PyState)
    (hwf : env.Wf) (hinit : PDFParser.init env = (.ok s, st0)) :
    (∀ e, env.tabula s.pdf_path = .error e →
      ∃ st', PDFParser.extract_tables env s st0 = (none, st') ∧ st'.fs = st0.fs) ∧
    (env.tabula s.pdf_path = .ok [] →
      ∃ st', PDFParser.extract_tables env s st0 = (none, st') ∧ st'.fs = st0.fs) ∧
    (∀ ts, env.tabula s.pdf_path = .ok ts → ts ≠ [] →
      ∃ st', PDFParser.extract_tables env s st0 = (some (tablesPath s), st') ∧
        s.temp_dir.isPrefixOf (tablesPath s) = true ∧
        st'.fs.files (tablesPath s) = some (.workbook (sheetsOf 1 ts)) ∧
        (sheetsOf 1 ts).length = ts.length ∧
        (∀ j, (sheetsOf 1 ts)[j]? =
          (ts[j]?).map (fun t => ("Table_" ++ natStr (1 + j), t))) ∧
        (∀ p, p ≠ tablesPath s → st'.fs.files p = st0.fs.files p)) := by
  have hInv := init_inv hwf hinit
  refine ⟨?_, ?_, ?_⟩
  · intro e he
    have heq : PDFParser.extract_tables env s st0 =
        (none, { fs := st0.fs,
                 trace := st0.trace ++ [.logInfo "start table extraction",
                   .tabulaCall s.pdf_path,
                   .logError ("table extraction failed: " ++ e)] }) := by
      simp [PDFParser.extract_tables, PyState.emit, he]
    exact ⟨_, heq, rfl⟩
  · intro he
    have heq : PDFParser.extract_tables env s st0 =
        (none, { fs := st0.fs,
                 trace := st0.trace ++ [.logInfo "start table extraction",
                   .tabulaCall s.pdf_path] }) := by
      simp [PDFParser.extract_tables, PyState.emit, he]
    exact ⟨_, heq, rfl⟩
  · intro ts ht hne
    have hie : ts.isEmpty = false := by
      cases ts with
      | nil => exact absurd rfl hne
      | cons t rest => rfl
    have heq : PDFParser.extract_tables env s st0 =
        (some (tablesPath s),
         { fs := st0.fs.writeFile (tablesPath s) (.workbook (sheetsOf 1 ts)),
           trace := st0.trace ++ [.logInfo "start table extraction",
             .tabulaCall s.pdf_path, .logInfo "tables written"] }) := by
      simp [PDFParser.extract_tables, PyState.emit, ht, hie, hInv.1]
    refine ⟨_, heq, isPrefixOf_append _ _, ?_, sheetsOf_length ts 1, ?_, ?_⟩
    · exact FS.writeFile_files_self _ _ _
    · intro j
      exact sheetsOf_getElem ts 1 j
    · intro p hp
      exact FS.writeFile_files_ne _ _ _ _ hp

theorem C3_witness :
    ∃ st', PDFParser.extract_tables envA sA st0A = (some (tablesPath sA), st') ∧
      st'.fs.files (tablesPath sA) =
        some (.workbook (sheetsOf 1 [[["c1"]], [["c2"]]])) := by
  obtain ⟨st', h1, _, h3, _, _, _⟩ :=
    (C3_extract_tables envA sA st0A envA_wf rfl).2.2 [[["c1"]], [["c2"]]] rfl (by simp)
  exact ⟨st', h1, h3⟩

/-- C4: with the document opening successfully, `extract_images` writes
exactly K = sum of per-page image counts files, all inside the images
subdirectory, with pairwise-distinct names determined by the (page,
per-page index) pair; each file's final contents depend only on the `gm`
optimization outcome at its own path (optimized contents on success, the
raw extracted bytes on a logged failure), so one file's optimization
failure leaves every other file intact; no path outside the entry set is
touched, and the images directory holds nothing else. -/
theorem C4_extract_images (env : Env) (s : PDFParser) (st0 : PyState)
    (pages : List (List ImgInfo))
    (hwf : env.Wf) (hinit : PDFParser.init env = (.ok s, st0))
    (hf : env.fitzPages s.pdf_path = .ok pages) :
    ∃ st', PDFParser.extract_images env s st0 = .ok (some (imagesDir s), st') ∧
      (docEntries (imagesDir s) 1 pages).length = (pages.map List.length).sum ∧
      ((docEntries (imagesDir s) 1 pages).map Prod.fst).Nodup ∧
      (∀ pr ∈ docEntries (imagesDir s) 1 pages,
        (imagesDir s).isPrefixOf pr.1 = true ∧
        st'.fs.files pr.1 = some (entryData env pr.1 pr.2) ∧
        entryData env pr.1 pr.2 =
          (if env.gmOk pr.1 then FileData.raw (env.gmOut pr.1)
           else FileData.raw pr.2.bytes)) ∧
      (∀ p, p ∉ (docEntries (imagesDir s) 1 pages).map Prod.fst →
        st'.fs.files p = st0.fs.files p) ∧
      (∀ p, (imagesDir s).isPrefixOf p = true →
        p ∉ (docEntries (imagesDir s) 1 pages).map Prod.fst →
        st'.fs.files p = none) := by
  obtain ⟨hex, hs, hst⟩ := init_ok hinit
  have hInv := init_inv hwf hinit
  have hmk := mkdirStatus_inv hInv
  have heq : PDFParser.extract_images env s st0 =
      .ok (some (imagesDir s),
        { fs := applyEntries env (docEntries (imagesDir s) 1 pages)
            (st0.fs.mkdirAdd (imagesDir s)),
          trace := st0.trace ++
            [.logInfo "start image extraction", .fitzOpen s.pdf_path] ++
            docTrace env (imagesDir s) 1 pages ++
            [.logInfo ("extracted " ++
              natStr ((pages.map List.length).sum) ++ " images")] }) := by
    simp only [PDFParser.extract_images, PyState.emit, imagesDir] at hmk ⊢
    rw [hmk]
    simp [hf, pagesLoop_eq, imagesDir, List.append_assoc]
  refine ⟨_, heq, docEntries_length _ _ _, docEntries_nodup _ _ _, ?_, ?_, ?_⟩
  · intro pr hpr
    have hkey : pr.1 ∈ (docEntries (imagesDir s) 1 pages).map Prod.fst :=
      List.mem_map_of_mem Prod.fst hpr
    obtain ⟨i, j, ext, _, _, hpe⟩ := docEntries_keys _ pages 1 _ hkey
    refine ⟨?_, ?_, rfl⟩
    · rw [hpe]
      exact isPrefixOf_append _ _
    · have := applyEntries_files_mem env (docEntries (imagesDir s) 1 pages)
        (st0.fs.mkdirAdd (imagesDir s)) pr.1 pr.2 (docEntries_nodup _ _ _) hpr
      exact this
  · intro p hp
    have := applyEntries_files_notin env (docEntries (imagesDir s) 1 pages)
      (st0.fs.mkdirAdd (imagesDir s)) p hp
    rw [this, FS.mkdirAdd_files]
  · intro p hpre hp
    have h1 := applyEntries_files_notin env (docEntries (imagesDir s) 1 pages)
      (st0.fs.mkdirAdd (imagesDir s)) p hp
    rw [h1, FS.mkdirAdd_files]
    subst hst
    rw [FS.mkdirAdd_files]
    rw [SWf] at hs
    subst hs
    refine hwf.2.1 p (isPrefixOf_trans ?_ hpre)
    exact isPrefixOf_append _ _

theorem C4_witness :
    ∃ st', PDFParser.extract_images envA sA st0A = .ok (some (imagesDir sA), st') := by
  obtain ⟨st', h, _⟩ := C4_extract_images envA sA st0A
    [[⟨"b1", "png"⟩], [⟨"b2", "jpg"⟩]] envA_wf rfl rfl
  exact ⟨st', h⟩

/-- C5: when the OCR engine call fails, `perform_ocr` logs the error and
returns the original source path, leaving the file system untouched; when
it succeeds, the returned path `ocr_path` lies inside the scratch
directory (and the original source does not). -/
theorem C5_perform_ocr (env : Env) (s : PDFParser) (st0 : PyState)
    (hwf : env.Wf) (hinit : PDFParser.init env = (.ok s, st0)) :
    (env.ocrOk s.pdf_path s.ocr_path = false →
      (PDFParser.perform_ocr env s st0).1 = s.pdf_path ∧
      (PDFParser.perform_ocr env s st0).2.trace =
        st0.trace ++ [.logInfo "start OCR", .ocrCall s.pdf_path s.ocr_path,
          .logError ("OCR failed: " ++ env.ocrErr)] ∧
      (PDFParser.perform_ocr env s st0).2.fs = st0.fs) ∧
    (env.ocrOk s.pdf_path s.ocr_path = true →
      (PDFParser.perform_ocr env s st0).1 = s.ocr_path ∧
      s.temp_dir.isPrefixOf s.ocr_path = true ∧
      s.temp_dir.isPrefixOf s.pdf_path = false) := by
  obtain ⟨hex, hs, hst⟩ := init_ok hinit
  rw [SWf] at hs
  constructor
  · intro hfail
    refine ⟨?_, ?_, ?_⟩ <;>
      simp [PDFParser.perform_ocr, PyState.emit, hfail, List.append_assoc]
  · intro hok
    refine ⟨?_, ?_, ?_⟩
    · simp [PDFParser.perform_ocr, PyState.emit, hok]
    · subst hs
      exact isPrefixOf_append _ _
    · subst hs
      exact hwf.2.2.2

theorem C5_witness :
    (PDFParser.perform_ocr envA sA st0A).1 = ["a"] ∧
    (PDFParser.perform_ocr envA sA st0A).2.trace =
      st0A.trace ++ [.logInfo "start OCR", .ocrCall ["a"] ["t", "ocr_a"],
        .logError ("OCR failed: " ++ envA.ocrErr)] := by
  obtain ⟨h1, h2, _⟩ := (C5_perform_ocr envA sA st0A envA_wf rfl).1 rfl
  exact ⟨h1, h2⟩

/-- C6: in every extraction sequence, every pdfminer text-extraction call
and every tabula table-detection call recorded in the trace passes the
original source path — never the OCR output. -/
theorem C6_reads_original (env : Env) (s : PDFParser) (st0 : PyState)
    (hwf : env.Wf) (hinit : PDFParser.init env = (.ok s, st0))
    (l : List Op) :
    ∃ rs st', runOps env s l st0 = .ok (rs, st') ∧
      (∀ p, Event.minerCall p ∈ st'.trace → p = env.pdfPath) ∧
      (∀ p, Event.tabulaCall p ∈ st'.trace → p = env.pdfPath) := by
  obtain ⟨hex, hs, hst⟩ := init_ok hinit
  have hInv := init_inv hwf hinit
  obtain ⟨tr', h, hro⟩ := runOps_eq env hs l st0.fs st0.trace hInv
  refine ⟨_, _, h, ?_, ?_⟩
  · intro p hp
    subst hst
    simp only [List.nil_append] at hp
    have := hro.1 p hp
    rw [SWf] at hs
    subst hs
    exact this
  · intro p hp
    subst hst
    simp only [List.nil_append] at hp
    have := hro.2 p hp
    rw [SWf] at hs
    subst hs
    exact this

theorem C6_witness :
    ∃ rs st', runOps envA sA [Op.text, Op.tables] st0A = .ok (rs, st') ∧
      (∀ p, Event.minerCall p ∈ st'.trace → p = ["a"]) ∧
      (∀ p, Event.tabulaCall p ∈ st'.trace → p = ["a"]) :=
  C6_reads_original envA sA st0A envA_wf rfl [Op.text, Op.tables]

/-- C7: running a list of extraction operations from a fresh session
yields, for any permutation of the list, the same return value for every
operation (each operation's value is a function of the environment alone)
and the same final file system. -/
theorem C7_order_independent (env : Env) (s : PDFParser) (st0 : PyState)
    (hwf : env.Wf) (hinit : PDFParser.init env = (.ok s, st0))
    (l₁ l₂ : List Op) (hperm : l₁.Perm l₂) :
    ∃ st₁ st₂,
      runOps env s l₁ st0 = .ok (l₁.map (opValue env s), st₁) ∧
      runOps env s l₂ st0 = .ok (l₂.map (opValue env s), st₂) ∧
      st₁.fs = st₂.fs := by
  obtain ⟨hex, hs, hst⟩ := init_ok hinit
  have hInv := init_inv hwf hinit
  obtain ⟨t₁, h₁, _⟩ := runOps_eq env hs l₁ st0.fs st0.trace hInv
  obtain ⟨t₂, h₂, _⟩ := runOps_eq env hs l₂ st0.fs st0.trace hInv
  exact ⟨_, _, h₁, h₂, applyOps_perm env hs hperm st0.fs⟩

theorem C7_witness :
    ∃ st₁ st₂,
      runOps envA sA [Op.text, Op.tables] st0A =
        .ok ([Op.text, Op.tables].map (opValue envA sA), st₁) ∧
      runOps envA sA [Op.tables, Op.text] st0A =
        .ok ([Op.tables, Op.text].map (opValue envA sA), st₂) ∧
      st₁.fs = st₂.fs :=
  C7_order_independent envA sA st0A envA_wf rfl _ _
    (List.Perm.swap Op.tables Op.text [])

/-- C8: when the CLI is given an existing input file and none of the
operation flags (`--ocr`, `--extract-text`, `--extract-images`,
`--extract-tables`, `--extract-all`), all of the CLI's operations run:
OCR, text, images and tables. -/
theorem C8_cli_default_all (a : CliArgs)
    (h1 : a.ocr = false) (h2 : a.extract_text = false)
    (h3 : a.extract_images = false) (h4 : a.extract_tables = false)
    (h5 : a.extract_all = false) :
    cliPlannedOps true a = some [Op.ocr, Op.text, Op.images, Op.tables] := by
  cases a
  subst h1 h2 h3 h4 h5
  rfl

theorem C8_witness :
    cliPlannedOps true ⟨false, false, false, false, false, false⟩ =
      some [Op.ocr, Op.text, Op.images, Op.tables] :=
  C8_cli_default_all ⟨false, false, false, false, false, false⟩ rfl rfl rfl rfl rfl

/-- C9: after any extraction sequence, the first `cleanup` call removes
the scratch directory recursively (no file or directory under it
survives) and logs success; a second `cleanup` finds nothing to remove,
changes nothing, and only logs the failure — neither call raises. -/
theorem C9_cleanup_twice (env : Env) (s : PDFParser) (st0 : PyState)
    (hwf : env.Wf) (hinit : PDFParser.init env = (.ok s, st0))
    (l : List Op) (rs : List OpResult) (st1 : PyState)
    (hrun : runOps env s l st0 = .ok (rs, st1)) :
    (∀ p, s.temp_dir.isPrefixOf p = true →
      (PDFParser.cleanup s st1).fs.files p = none ∧
      (PDFParser.cleanup s st1).fs.dirs p = false) ∧
    (PDFParser.cleanup s st1).trace = st1.trace ++ [.logInfo "cleanup done"] ∧
    PDFParser.cleanup s (PDFParser.cleanup s st1) =
      (PDFParser.cleanup s st1).emit (.logError "cleanup failed") := by
  obtain ⟨hex, hs, hst⟩ := init_ok hinit
  have hInv := init_inv hwf hinit
  obtain ⟨tr', h, _⟩ := runOps_eq env hs l st0.fs st0.trace hInv
  rw [h] at hrun
  have hpair := Except.ok.inj hrun
  rw [Prod.ext_iff] at hpair
  have hst1 : st1 = ⟨applyOps env s l st0.fs, st0.trace ++ tr'⟩ := hpair.2.symm
  have hInv1 : Inv s st1.fs := by
    rw [hst1]
    exact applyOps_inv env hs l hInv
  have hdirs : st1.fs.dirs s.temp_dir = true := hInv1.1
  have hc1 : PDFParser.cleanup s st1 =
      { fs := st1.fs.removeTree s.temp_dir,
        trace := st1.trace ++ [.logInfo "cleanup done"] } := by
    rw [PDFParser.cleanup, if_pos hdirs]
  have hdirs2 : (PDFParser.cleanup s st1).fs.dirs s.temp_dir = false := by
    rw [hc1]
    exact removeTree_dirs_under _ _ _ (isPrefixOf_self _)
  refine ⟨?_, ?_, ?_⟩
  · intro p hp
    rw [hc1]
    exact ⟨removeTree_files_under _ _ _ hp, removeTree_dirs_under _ _ _ hp⟩
  · rw [hc1]
  · conv_lhs => rw [PDFParser.cleanup]
    rw [if_neg (by simp [hdirs2])]

theorem C9_witness :
    (PDFParser.cleanup sA st0A).fs.dirs ["t"] = false ∧
    PDFParser.cleanup sA (PDFParser.cleanup sA st0A) =
      (PDFParser.cleanup sA st0A).emit (.logError "cleanup failed") := by
  obtain ⟨h1, _, h3⟩ := C9_cleanup_twice envA sA st0A envA_wf rfl [] [] st0A rfl
  exact ⟨(h1 ["t"] (by decide)).2, h3⟩

/-- C10: when the OCR engine fails, `perform_ocr` returns the original
source path, which exists, so both the CLI and the GUI front ends copy the
un-OCR'd original to `output_dir/ocr_<name>`: an `ocr_`-prefixed output
file (holding the original contents) appears even though no OCR was
applied. -/
theorem C10_ocr_prefixed_copy (env : Env) (s : PDFParser) (st0 : PyState)
    (outDir : FPath) (c : FileData)
    (hwf : env.Wf) (hinit : PDFParser.init env = (.ok s, st0))
    (hsrc : env.fs0.files env.pdfPath = some c)
    (hfail : env.ocrOk s.pdf_path s.ocr_path = false) :
    (PDFParser.perform_ocr env s st0).1 = s.pdf_path ∧
    (PDFParser.perform_ocr env s st0).2.fs.pathExists s.pdf_path = true ∧
    (∃ st', cliOcrStep env s outDir st0 = .ok (s.pdf_path, st') ∧
      st'.fs.files (outDir ++ ["ocr_" ++ pathName env.pdfPath]) = some c) ∧
    (∃ st', guiOcrStep env s outDir st0 = .ok (s.pdf_path, st') ∧
      st'.fs.files (outDir ++ ["ocr_" ++ pathName env.pdfPath]) = some c) := by
  obtain ⟨hex, hs, hst⟩ := init_ok hinit
  rw [SWf] at hs
  subst hs
  subst hst
  have hfile : (env.fs0.mkdirAdd env.tempDir).files env.pdfPath = some c := by
    rw [FS.mkdirAdd_files]
    exact hsrc
  have hrun : PDFParser.perform_ocr env
      { pdf_path := env.pdfPath, temp_dir := env.tempDir,
        ocr_path := env.tempDir ++ ["ocr_" ++ pathName env.pdfPath] }
      { fs := env.fs0.mkdirAdd env.tempDir, trace := [] } =
      (env.pdfPath,
       { fs := env.fs0.mkdirAdd env.tempDir,
         trace := [.logInfo "start OCR",
           .ocrCall env.pdfPath (env.tempDir ++ ["ocr_" ++ pathName env.pdfPath]),
           .logError ("OCR failed: " ++ env.ocrErr)] }) := by
    simp [PDFParser.perform_ocr, PyState.emit, hfail]
  refine ⟨by rw [hrun], ?_, ?_, ?_⟩
  · rw [hrun]
    simp [FS.pathExists, hfile]
  · have hstep : cliOcrStep env
        { pdf_path := env.pdfPath, temp_dir := env.tempDir,
          ocr_path := env.tempDir ++ ["ocr_" ++ pathName env.pdfPath] } outDir
        { fs := env.fs0.mkdirAdd env.tempDir, trace := [] } =
        .ok (env.pdfPath,
          { fs := (env.fs0.mkdirAdd env.tempDir).writeFile
              (outDir ++ ["ocr_" ++ pathName env.pdfPath]) c,
            trace := [.logInfo "start OCR",
              .ocrCall env.pdfPath
                (env.tempDir ++ ["ocr_" ++ pathName env.pdfPath]),
              .logError ("OCR failed: " ++ env.ocrErr)] }) := by
      rw [cliOcrStep, hrun]
      simp [FS.pathExists, hfile, FS.copy2]
    exact ⟨_, hstep, FS.writeFile_files_self _ _ _⟩
  · have hstep : guiOcrStep env
        { pdf_path := env.pdfPath, temp_dir := env.tempDir,
          ocr_path := env.tempDir ++ ["ocr_" ++ pathName env.pdfPath] } outDir
        { fs := env.fs0.mkdirAdd env.tempDir, trace := [] } =
        .ok (env.pdfPath,
          { fs := (env.fs0.mkdirAdd env.tempDir).writeFile
              (outDir ++ ["ocr_" ++ pathName env.pdfPath]) c,
            trace := [.logInfo "start OCR",
              .ocrCall env.pdfPath
                (env.tempDir ++ ["ocr_" ++ pathName env.pdfPath]),
              .logError ("OCR failed: " ++ env.ocrErr)] }) := by
      rw [guiOcrStep, hrun]
      simp [FS.pathExists, hfile, FS.copy2]
    exact ⟨_, hstep, FS.writeFile_files_self _ _ _⟩

theorem C10_witness :
    ∃ st', cliOcrStep envA sA ["o"] st0A = .ok (["a"], st') ∧
      st'.fs.files (["o"] ++ ["ocr_" ++ pathName ["a"]]) =
        some (.raw "pdfbytes") := by
  obtain ⟨h1, h2, h3, h4⟩ := C10_ocr_prefixed_copy envA sA st0A ["o"]
    (.raw "pdfbytes") envA_wf rfl rfl rfl
  exact h3

end PdfDemo



